import Mathlib

/-!
Verification development for the GOYAV document-scanning service core:
the upload/dedup/analyze/retire workflow implemented in
`internal/core/service` together with its helper package `pkg/helper`
and the repository adapters.

Byte strings are modelled as `List Nat` (each entry a byte value),
character strings as `List Char`, and timestamps as `Int`.
The SHA-256 and MD5 digests, hex encoding and raw URL-safe base64
encoding used by `pkg/helper/crypto_helper.go` (via Go's standard
library) are implemented executably below, so that every claim about
the derived `hash` and `id` can be evaluated on concrete inputs.
-/

set_option maxRecDepth 100000

namespace Goyav

/-! ## 32-bit word arithmetic on `Nat` -/

/-- Wrap-around addition modulo `2 ^ 32`, the Go `uint32` addition. -/
def add32 (a b : Nat) : Nat := (a + b) % 4294967296

/-- Bitwise complement inside a 32-bit word. -/
def not32 (a : Nat) : Nat := 4294967295 - a % 4294967296

/-- Right rotation of a 32-bit word by `n` places. -/
def rotr32 (n a : Nat) : Nat :=
  ((a % 4294967296) >>> n) ||| ((a <<< (32 - n)) % 4294967296)

/-- Left rotation of a 32-bit word by `n` places. -/
def rotl32 (n a : Nat) : Nat :=
  ((a <<< n) % 4294967296) ||| ((a % 4294967296) >>> (32 - n))

/-- Truncate a value to one byte. -/
def byteOf (n : Nat) : Nat := n % 256

/-- Big-endian bytes of a 32-bit word. -/
def be32 (w : Nat) : List Nat :=
  [byteOf (w >>> 24), byteOf (w >>> 16), byteOf (w >>> 8), byteOf w]

/-- Little-endian bytes of a 32-bit word. -/
def le32 (w : Nat) : List Nat :=
  [byteOf w, byteOf (w >>> 8), byteOf (w >>> 16), byteOf (w >>> 24)]

/-- Big-endian bytes of a 64-bit value. -/
def be64 (n : Nat) : List Nat :=
  [byteOf (n >>> 56), byteOf (n >>> 48), byteOf (n >>> 40), byteOf (n >>> 32),
   byteOf (n >>> 24), byteOf (n >>> 16), byteOf (n >>> 8), byteOf n]

/-- Little-endian bytes of a 64-bit value. -/
def le64 (n : Nat) : List Nat :=
  [byteOf n, byteOf (n >>> 8), byteOf (n >>> 16), byteOf (n >>> 24),
   byteOf (n >>> 32), byteOf (n >>> 40), byteOf (n >>> 48), byteOf (n >>> 56)]

/-! ## SHA-256 (FIPS 180-4), as used by Go `crypto/sha256` -/

/-- The 64 SHA-256 round constants. -/
def sha256K : List Nat :=
  [1116352408, 1899447441, 3049323471, 3921009573, 961987163, 1508970993, 2453635748, 2870763221,
   3624381080, 310598401, 607225278, 1426881987, 1925078388, 2162078206, 2614888103, 3248222580,
   3835390401, 4022224774, 264347078, 604807628, 770255983, 1249150122, 1555081692, 1996064986,
   2554220882, 2821834349, 2952996808, 3210313671, 3336571891, 3584528711, 113926993, 338241895,
   666307205, 773529912, 1294757372, 1396182291, 1695183700, 1986661051, 2177026350, 2456956037,
   2730485921, 2820302411, 3259730800, 3345764771, 3516065817, 3600352804, 4094571909, 275423344,
   430227734, 506948616, 659060556, 883997877, 958139571, 1322822218, 1537002063, 1747873779,
   1955562222, 2024104815, 2227730452, 2361852424, 2428436474, 2756734187, 3204031479, 3329325298]

/-- SHA-256 working state: eight 32-bit words. -/
structure Sha256State where
  a : Nat
  b : Nat
  c : Nat
  d : Nat
  e : Nat
  f : Nat
  g : Nat
  h : Nat
deriving Repr, DecidableEq

/-- The SHA-256 initial hash value. -/
def sha256Init : Sha256State :=
  ⟨1779033703, 3144134277, 1013904242, 2773480762,
   1359893119, 2600822924, 528734635, 1541459225⟩

/-- Merkle–Damgård padding: `0x80`, zeros to 56 mod 64, then the
big-endian 64-bit bit length. -/
def sha256Pad (msg : List Nat) : List Nat :=
  let L := msg.length
  msg ++ [0x80] ++ List.replicate ((119 - L % 64) % 64) 0 ++ be64 (8 * L)

/-- Big-endian 32-bit word at word index `i` of a byte block. -/
def wordBE (block : List Nat) (i : Nat) : Nat :=
  byteOf (block.getD (4 * i) 0) <<< 24 |||
  byteOf (block.getD (4 * i + 1) 0) <<< 16 |||
  byteOf (block.getD (4 * i + 2) 0) <<< 8 |||
  byteOf (block.getD (4 * i + 3) 0)

/-- Expand the 16 block words into the 64-entry message schedule. -/
def sha256Schedule (block : List Nat) : List Nat :=
  let w16 := (List.range 16).map (wordBE block)
  (List.range 48).foldl (fun w _ =>
    let n := w.length
    let w15 := w.getD (n - 15) 0
    let w2 := w.getD (n - 2) 0
    let s0 := rotr32 7 w15 ^^^ rotr32 18 w15 ^^^ (w15 >>> 3)
    let s1 := rotr32 17 w2 ^^^ rotr32 19 w2 ^^^ (w2 >>> 10)
    w ++ [add32 (add32 (w.getD (n - 16) 0) s0) (add32 (w.getD (n - 7) 0) s1)]) w16

/-- One SHA-256 round. -/
def sha256Round (st : Sha256State) (kw : Nat × Nat) : Sha256State :=
  let s1 := rotr32 6 st.e ^^^ rotr32 11 st.e ^^^ rotr32 25 st.e
  let ch := (st.e &&& st.f) ^^^ (not32 st.e &&& st.g)
  let t1 := add32 (add32 st.h s1) (add32 ch (add32 kw.1 kw.2))
  let s0 := rotr32 2 st.a ^^^ rotr32 13 st.a ^^^ rotr32 22 st.a
  let maj := (st.a &&& st.b) ^^^ (st.a &&& st.c) ^^^ (st.b &&& st.c)
  let t2 := add32 s0 maj
  ⟨add32 t1 t2, st.a, st.b, st.c, add32 st.d t1, st.e, st.f, st.g⟩

/-- Compress one 64-byte block into the running state. -/
def sha256Block (st : Sha256State) (block : List Nat) : Sha256State :=
  let w := sha256Schedule block
  let r := (sha256K.zip w).foldl sha256Round st
  ⟨add32 st.a r.a, add32 st.b r.b, add32 st.c r.c, add32 st.d r.d,
   add32 st.e r.e, add32 st.f r.f, add32 st.g r.g, add32 st.h r.h⟩

/-- SHA-256 digest of a byte string, as its 32 digest bytes. -/
def sha256 (msg : List Nat) : List Nat :=
  let padded := sha256Pad msg
  let st := (List.range (padded.length / 64)).foldl
    (fun st i => sha256Block st ((padded.drop (64 * i)).take 64)) sha256Init
  be32 st.a ++ be32 st.b ++ be32 st.c ++ be32 st.d ++
  be32 st.e ++ be32 st.f ++ be32 st.g ++ be32 st.h

/-! ## MD5 (RFC 1321), as used by Go `crypto/md5` -/

/-- The 64 MD5 sine-table constants. -/
def md5K : List Nat :=
  [3614090360, 3905402710, 606105819, 3250441966, 4118548399, 1200080426, 2821735955, 4249261313,
   1770035416, 2336552879, 4294925233, 2304563134, 1804603682, 4254626195, 2792965006, 1236535329,
   4129170786, 3225465664, 643717713, 3921069994, 3593408605, 38016083, 3634488961, 3889429448,
   568446438, 3275163606, 4107603335, 1163531501, 2850285829, 4243563512, 1735328473, 2368359562,
   4294588738, 2272392833, 1839030562, 4259657740, 2763975236, 1272893353, 4139469664, 3200236656,
   681279174, 3936430074, 3572445317, 76029189, 3654602809, 3873151461, 530742520, 3299628645,
   4096336452, 1126891415, 2878612391, 4237533241, 1700485571, 2399980690, 4293915773, 2240044497,
   1873313359, 4264355552, 2734768916, 1309151649, 4149444226, 3174756917, 718787259, 3951481745]

/-- The MD5 per-round left-rotation amounts. -/
def md5S : List Nat :=
  [7, 12, 17, 22, 7, 12, 17, 22, 7, 12, 17, 22, 7, 12, 17, 22,
   5, 9, 14, 20, 5, 9, 14, 20, 5, 9, 14, 20, 5, 9, 14, 20,
   4, 11, 16, 23, 4, 11, 16, 23, 4, 11, 16, 23, 4, 11, 16, 23,
   6, 10, 15, 21, 6, 10, 15, 21, 6, 10, 15, 21, 6, 10, 15, 21]

/-- MD5 working state: four 32-bit words. -/
structure Md5State where
  a : Nat
  b : Nat
  c : Nat
  d : Nat
deriving Repr, DecidableEq

/-- The MD5 initial state. -/
def md5Init : Md5State := ⟨1732584193, 4023233417, 2562383102, 271733878⟩

/-- MD5 padding: `0x80`, zeros to 56 mod 64, then the little-endian
64-bit bit length. -/
def md5Pad (msg : List Nat) : List Nat :=
  let L := msg.length
  msg ++ [0x80] ++ List.replicate ((119 - L % 64) % 64) 0 ++ le64 (8 * L)

/-- Little-endian 32-bit word at word index `i` of a byte block. -/
def wordLE (block : List Nat) (i : Nat) : Nat :=
  byteOf (block.getD (4 * i) 0) |||
  byteOf (block.getD (4 * i + 1) 0) <<< 8 |||
  byteOf (block.getD (4 * i + 2) 0) <<< 16 |||
  byteOf (block.getD (4 * i + 3) 0) <<< 24

/-- One MD5 round, for round index `i` over the block words `m`. -/
def md5Round (m : List Nat) (st : Md5State) (i : Nat) : Md5State :=
  let fg : Nat × Nat :=
    if i < 16 then ((st.b &&& st.c) ||| (not32 st.b &&& st.d), i)
    else if i < 32 then ((st.d &&& st.b) ||| (not32 st.d &&& st.c), (5 * i + 1) % 16)
    else if i < 48 then (st.b ^^^ st.c ^^^ st.d, (3 * i + 5) % 16)
    else (st.c ^^^ (st.b ||| not32 st.d), 7 * i % 16)
  let t := add32 (add32 st.a fg.1) (add32 (md5K.getD i 0) (m.getD fg.2 0))
  ⟨st.d, add32 st.b (rotl32 (md5S.getD i 0) t), st.b, st.c⟩

/-- Compress one 64-byte block into the running MD5 state. -/
def md5Block (st : Md5State) (block : List Nat) : Md5State :=
  let m := (List.range 16).map (wordLE block)
  let r := (List.range 64).foldl (md5Round m) st
  ⟨add32 st.a r.a, add32 st.b r.b, add32 st.c r.c, add32 st.d r.d⟩

/-- MD5 digest of a byte string, as its 16 digest bytes. -/
def md5 (msg : List Nat) : List Nat :=
  let padded := md5Pad msg
  let st := (List.range (padded.length / 64)).foldl
    (fun st i => md5Block st ((padded.drop (64 * i)).take 64)) md5Init
  le32 st.a ++ le32 st.b ++ le32 st.c ++ le32 st.d

/-! ## Hex and raw URL-safe base64 encodings -/

/-- Lowercase hex digit for a value below 16. -/
def hexDigit (n : Nat) : Char :=
  if n < 10 then Char.ofNat (48 + n) else Char.ofNat (87 + n)

/-- Lowercase hex encoding of a byte string, two digits per byte: the
Go `fmt.Sprintf` percent-x rendering of a byte slice. -/
def hexEncode (bs : List Nat) : List Char :=
  bs.flatMap (fun b => [hexDigit (byteOf b / 16), hexDigit (byteOf b % 16)])

/-- The URL-safe base64 alphabet. -/
def b64Char (n : Nat) : Char :=
  if n < 26 then Char.ofNat (65 + n)
  else if n < 52 then Char.ofNat (97 + (n - 26))
  else if n < 62 then Char.ofNat (48 + (n - 52))
  else if n = 62 then Char.ofNat 45
  else Char.ofNat 95

/-- Raw (unpadded) URL-safe base64 encoding of a byte string: the Go
`base64.RawURLEncoding` used to render document ids. Structural
recursion over 3-byte groups. -/
def b64urlEncode : List Nat → List Char
  | [] => []
  | [b0] =>
    [b64Char (byteOf b0 >>> 2), b64Char ((byteOf b0 &&& 3) <<< 4)]
  | [b0, b1] =>
    [b64Char (byteOf b0 >>> 2), b64Char (((byteOf b0 &&& 3) <<< 4) ||| (byteOf b1 >>> 4)),
     b64Char ((byteOf b1 &&& 15) <<< 2)]
  | b0 :: b1 :: b2 :: rest =>
    b64Char (byteOf b0 >>> 2) :: b64Char (((byteOf b0 &&& 3) <<< 4) ||| (byteOf b1 >>> 4)) ::
    b64Char (((byteOf b1 &&& 15) <<< 2) ||| (byteOf b2 >>> 6)) :: b64Char (byteOf b2 &&& 63) ::
    b64urlEncode rest

/-! ## Validation against published test vectors -/

/-- Sanity check: SHA-256 of the empty string matches the published
vector. This digest is central below: the service's eager hashing bug
makes it the hash of every uploaded document. -/
theorem sha256_empty_vector :
    hexEncode (sha256 []) =
      "e3b0c44298fc1c149afbf4c8996fb92427ae41e4649b934ca495991b7852b855".toList := by
  decide

/-- Sanity check: SHA-256 of the three bytes of the string abc matches
the published vector. -/
theorem sha256_abc_vector :
    hexEncode (sha256 [97, 98, 99]) =
      "ba7816bf8f01cfea414140de5dae2223b00361a396177a9cb410ff61f20015ad".toList := by
  decide

/-- Sanity check: MD5 of the empty string matches the published vector. -/
theorem md5_empty_vector :
    hexEncode (md5 []) = "d41d8cd98f00b204e9800998ecf8427e".toList := by
  decide

/-- Sanity check: MD5 of the three bytes of the string abc matches the
published vector. -/
theorem md5_abc_vector :
    hexEncode (md5 [97, 98, 99]) = "900150983cd24fb0d6963f7d28e17f72".toList := by
  decide

/-- Sanity check: the raw URL-safe base64 rendering of the MD5 digest
of the empty string. -/
theorem b64url_md5_empty_vector :
    b64urlEncode (md5 []) = "1B2M2Y8AsgTpgAmY7PhCfg".toList := by
  decide

/-! ## UTF-8 encoding

Go strings are byte strings; tags enter as UTF-8 text. We model tags
as `List Char` and convert to bytes where the code hashes them. -/

/-- UTF-8 bytes of a single scalar value. -/
def utf8EncodeChar (c : Char) : List Nat :=
  let n := c.toNat
  if n < 0x80 then [n]
  else if n < 0x800 then
    [0xC0 ||| (n >>> 6), 0x80 ||| (n &&& 0x3F)]
  else if n < 0x10000 then
    [0xE0 ||| (n >>> 12), 0x80 ||| ((n >>> 6) &&& 0x3F), 0x80 ||| (n &&& 0x3F)]
  else
    [0xF0 ||| (n >>> 18), 0x80 ||| ((n >>> 12) &&& 0x3F),
     0x80 ||| ((n >>> 6) &&& 0x3F), 0x80 ||| (n &&& 0x3F)]

/-- UTF-8 bytes of a character string. -/
def utf8Encode (s : List Char) : List Nat := s.flatMap utf8EncodeChar

/-! ## Tag sanitization (`pkg/helper`, `Sanitize`)

`Sanitize` truncates the tag to `TagMaxLength` *bytes* and then walks
its runes, keeping letters, digits, `-`, `_` and `.`, mapping each
space to `_` and dropping everything else.

Go's `unicode.IsLetter` / `unicode.IsDigit` consult the full Unicode
tables, which are external library data; the model is parameterized by
a `UnicodeTables` record of the two classifiers, and concrete
instances use the ASCII classifiers (which agree with Go on ASCII). -/

/-- The rune classifiers of Go's `unicode` package, as parameters. -/
structure UnicodeTables where
  IsLetter : Char → Bool
  IsDigit : Char → Bool

/-- The ASCII fragment of the Go classifiers, used for concrete runs.
On ASCII characters these agree with `unicode.IsLetter` and
`unicode.IsDigit`. -/
def asciiTables : UnicodeTables := ⟨Char.isAlpha, Char.isDigit⟩

/-- Maximum stored tag length in bytes (`helper.TagMaxLength`). -/
def TagMaxLength : Nat := 128

/-- Byte-budget truncation of a character string: keep leading
characters while their cumulative UTF-8 size fits the budget. Go slices
the raw bytes (`tag[:TagMaxLength]`); a multi-byte rune cut by that
slice decodes as replacement runes, which the subsequent filter drops,
so stopping at the cut rune yields the same sanitized result. -/
def byteTruncate : Nat → List Char → List Char
  | _, [] => []
  | budget, c :: cs =>
    if (utf8EncodeChar c).length ≤ budget then
      c :: byteTruncate (budget - (utf8EncodeChar c).length) cs
    else []

/-- Whether a rune is kept verbatim: a letter, a digit, `-`, `_` or `.`. -/
def keepRune (u : UnicodeTables) (r : Char) : Bool :=
  u.IsLetter r || u.IsDigit r || r == '-' || r == '_' || r == '.'

/-- Per-rune action of the sanitize loop: keep, map space to
underscore, or drop. -/
def sanitizeChar (u : UnicodeTables) (r : Char) : Option Char :=
  if keepRune u r then some r else if r == ' ' then some '_' else none

/-- The tag sanitizer `helper.Sanitize`: truncate to the byte budget
first, then filter/map each rune. -/
def Sanitize (u : UnicodeTables) (tag : List Char) : List Char :=
  (byteTruncate TagMaxLength tag).filterMap (sanitizeChar u)

/-! ## Hash and id derivation (`pkg/helper`, `cryptoWriter`)

`cryptoWriter` feeds every written byte to both a SHA-256 and an MD5
accumulator; `GenerateHashAndID` renders the SHA-256 digest in hex and,
after appending the tag bytes to the MD5 accumulator, renders the MD5
digest in raw URL-safe base64. The model keeps the written bytes and
applies the digests at finalization, which computes the same values as
Go's incremental hash states. -/

/-- The `cryptoWriter` state: bytes written so far to both digests. -/
structure CryptoWriter where
  written : List Nat
deriving Repr, DecidableEq

/-- A fresh `cryptoWriter` with empty accumulators. -/
def NewCryptoWriter : CryptoWriter := ⟨[]⟩

/-- Writing data appends it to both digest accumulators. -/
def CryptoWriter.write (cw : CryptoWriter) (data : List Nat) : CryptoWriter :=
  ⟨cw.written ++ data⟩

/-- Finalize: the hex SHA-256 of the bytes written so far, and the raw
URL-safe base64 MD5 of those bytes followed by the tag bytes. -/
def CryptoWriter.GenerateHashAndID (cw : CryptoWriter) (tag : List Char) :
    List Char × List Char :=
  (hexEncode (sha256 cw.written), b64urlEncode (md5 (cw.written ++ utf8Encode tag)))

/-! ## Domain model (`internal/core/domain`) -/

/-- Analysis status of a document. The source stores these as the
integers 0 (pending), 1 and 2 (the two verdicts), per the documents
table check constraint. -/
inductive AnalysisStatus
  | pending
  | clean
  | infected
deriving Repr, DecidableEq

/-- A document record, with the fields of `domain.Document` used by the
service and the repositories. Timestamps are abstract instants. -/
structure Document where
  ID : List Char
  Hash : List Char
  Tag : List Char
  Status : AnalysisStatus
  AnalyzedAt : Int
  CreatedAt : Int
deriving Repr, DecidableEq

/-- Modelled from the spec: `domain.NewDocument` (the `domain` package's
document constructor is not among the provided sources) creates a new
document with status `pending`, a fresh `createdAt` and no analysis
date, per section 4.2 step 6 of the specification. -/
def NewDocument (ID hash tag : List Char) (now : Int) : Document :=
  ⟨ID, hash, tag, .pending, 0, now⟩

/-! ## The upload orchestrator (`service.Upload`)

`Service.Upload` is written against the repository ports; the model
takes the repository responses as function parameters (each port method
is called at most once per upload) and additionally reports which side
effects were performed, so that state-level semantics can be derived
for any repository model. -/

/-- Outcome of a metadata `Save` call. -/
inductive SaveOutcome
  | ok
  | alreadyExists
  | failed
deriving Repr, DecidableEq

/-- Result of `Service.Upload` as seen by the caller: a created id, an
existing id together with `port.ErrDocumentAlreadyExists`, or a fatal
upload error (empty id). -/
inductive UploadResult
  | created (ID : List Char)
  | existing (ID : List Char)
  | uploadError
deriving Repr, DecidableEq

/-- Side effects performed by one `Upload` call: bytes stored under an
id, bytes drawn through the tee into the crypto writer, a successfully
inserted metadata row, and a scheduled scan. -/
structure UploadEffects where
  savedBin : Option (List Char) := none
  teeWritten : List Nat := []
  savedDoc : Option Document := none
  scheduled : Option (List Char) := none
deriving Repr, DecidableEq

/-- Tail of `Upload` past the dedup checks: store the bytes (the binary
repository reads the teed, size-limited stream — only now do content
bytes reach the crypto writer, after the digests were already taken),
insert the new pending document, and schedule the asynchronous scan.
A failed metadata insert aborts the upload but the stored bytes are not
rolled back. -/
def uploadTail (saveBin : List Char → Bool) (saveDoc : Document → SaveOutcome)
    (data : List Nat) (size : Nat) (hash ID tag : List Char) (now : Int) :
    UploadResult × UploadEffects :=
  let consumed := data.take size
  if saveBin ID then
    let newDoc := NewDocument ID hash tag now
    match saveDoc newDoc with
    | .ok =>
      (.created ID,
       {savedBin := some ID, teeWritten := consumed,
        savedDoc := some newDoc, scheduled := some ID})
    | _ => (.uploadError, {savedBin := some ID, teeWritten := consumed})
  else (.uploadError, {})

/-- `Service.Upload`. It sanitizes the tag, wraps the data stream as
`io.TeeReader(io.LimitReader(data, size), cw)`, and immediately calls
`cw.GenerateHashAndID(tag)`. A tee reader only writes to `cw` when the
wrapped stream is read, and nothing has read the stream at that point,
so the digests are taken over an empty accumulator. It then looks up an
existing document by hash and either short-circuits, propagates a known
verdict under a new id, or falls through to `uploadTail`. -/
def Upload (u : UnicodeTables)
    (getByHash : List Char → Option Document)
    (saveBin : List Char → Bool)
    (saveDoc : Document → SaveOutcome)
    (data : List Nat) (size : Nat) (tag : List Char) (now : Int) :
    UploadResult × UploadEffects :=
  let tag := Sanitize u tag
  let cw := NewCryptoWriter
  let hashID := cw.GenerateHashAndID tag
  let hash := hashID.1
  let ID := hashID.2
  match getByHash hash with
  | some existingDoc =>
    if existingDoc.Tag = tag then (.existing existingDoc.ID, {})
    else if existingDoc.Status ≠ .pending then
      let d : Document := ⟨ID, hash, tag, existingDoc.Status, existingDoc.AnalyzedAt, now⟩
      match saveDoc d with
      | .ok => (.existing ID, {savedDoc := some d})
      | _ => (.uploadError, {})
    else uploadTail saveBin saveDoc data size hash ID tag now
  | none => uploadTail saveBin saveDoc data size hash ID tag now

/-- The hash value `Upload` derives for every request: because the
digests are finalized before the stream is read, this is the hex
SHA-256 of the empty byte string, independent of the content. -/
def uploadHashValue : List Char := hexEncode (sha256 [])

/-- The id `Upload` derives for a sanitized tag: the raw URL-safe
base64 MD5 of the tag bytes alone, independent of the content. -/
def uploadIdOf (tag : List Char) : List Char := b64urlEncode (md5 (utf8Encode tag))

/-! ## Repository state model

The metadata store is a collection of documents keyed by id, the
binary store a set of ids holding bytes, and `scans` records the ids
handed to the scan coordinator. The operations below translate the
repository adapters (`docrepo`, `binaryrepo`) with all dependencies
online; where Go iterates a map in unspecified order (`GetByHash` scans
the store for any row with the hash, with no ordering clause in the
Postgres query either), the model fixes first-inserted-first order. -/

/-- Full system state: metadata rows, ids with stored bytes, scheduled
scans. -/
structure SysState where
  docs : List Document
  bins : List (List Char)
  scans : List (List Char)
deriving Repr, DecidableEq

/-- The empty initial state. -/
def initState : SysState := ⟨[], [], []⟩

/-- `DocumentRepository.GetByHash`: some stored document with the given
hash, or none. -/
def findByHash (docs : List Document) (h : List Char) : Option Document :=
  docs.find? (fun d => d.Hash = h)

/-- `DocumentRepository.Save` against the store: fails with the
already-exists condition when a row with the same id is present,
otherwise succeeds. -/
def mockSaveDoc (docs : List Document) (d : Document) : SaveOutcome :=
  if docs.any (fun e => e.ID = d.ID) then .alreadyExists else .ok

/-- `BinaryRepository.Save`: record that the id holds bytes. -/
def binInsert (bins : List (List Char)) (ID : List Char) : List (List Char) :=
  if ID ∈ bins then bins else ID :: bins

/-- `BinaryRepository.Delete`: drop the id from the store. -/
def binDelete (bins : List (List Char)) (ID : List Char) : List (List Char) :=
  bins.filter (fun x => x ≠ ID)

/-- `DocumentRepository.UpdateStatus`: set status and analysis date on
the row with the given id. -/
def updateStatusDocs (docs : List Document) (ID : List Char)
    (st : AnalysisStatus) (t : Int) : List Document :=
  docs.map (fun d => if d.ID = ID then {d with Status := st, AnalyzedAt := t} else d)

/-- `DocumentRepository.Purge`: delete every row created before the
date whose status is not pending. -/
def purgeDocs (docs : List Document) (date : Int) : List Document :=
  docs.filter (fun d => ¬(d.CreatedAt < date ∧ d.Status ≠ AnalysisStatus.pending))

/-- Apply the side effects of one upload to the state. -/
def applyEffects (s : SysState) (eff : UploadEffects) : SysState :=
  { docs := s.docs ++ eff.savedDoc.toList,
    bins := match eff.savedBin with
            | some i => binInsert s.bins i
            | none => s.bins,
    scans := s.scans ++ eff.scheduled.toList }

/-- One `Upload` call served against the store state, with an online
binary repository. -/
def uploadStep (u : UnicodeTables) (s : SysState)
    (data : List Nat) (size : Nat) (tag : List Char) (now : Int) :
    UploadResult × SysState :=
  let r := Upload u (findByHash s.docs) (fun _ => true) (mockSaveDoc s.docs)
    data size tag now
  (r.1, applyEffects s r.2)

/-! ## System transitions

`Step` is a system transition: an upload request (including failed
uploads, whose stored bytes the code does not roll back), a completed
scan (a successful `Analyze` whose verdict is written by
`UpdateStatus` and whose bytes are then removed by `Delete`, the
success path of `attemptAnalysis`), or one retention-sweeper tick.
`SafeStep` is the same relation with failed uploads excluded. -/

/-- A system transition. -/
inductive Step (u : UnicodeTables) : SysState → SysState → Prop
  | upload (s : SysState) (data : List Nat) (size : Nat) (tag : List Char) (now : Int) :
      Step u s (uploadStep u s data size tag now).2
  | scanComplete (s : SysState) (ID : List Char) (st : AnalysisStatus) (t : Int)
      (h : st ≠ AnalysisStatus.pending) :
      Step u s ⟨updateStatusDocs s.docs ID st t, binDelete s.bins ID, s.scans⟩
  | purgeTick (s : SysState) (date : Int) :
      Step u s ⟨purgeDocs s.docs date, s.bins, s.scans⟩

/-- A system transition whose upload, if any, did not fail. -/
inductive SafeStep (u : UnicodeTables) : SysState → SysState → Prop
  | upload (s : SysState) (data : List Nat) (size : Nat) (tag : List Char) (now : Int)
      (h : (uploadStep u s data size tag now).1 ≠ UploadResult.uploadError) :
      SafeStep u s (uploadStep u s data size tag now).2
  | scanComplete (s : SysState) (ID : List Char) (st : AnalysisStatus) (t : Int)
      (h : st ≠ AnalysisStatus.pending) :
      SafeStep u s ⟨updateStatusDocs s.docs ID st t, binDelete s.bins ID, s.scans⟩
  | purgeTick (s : SysState) (date : Int) :
      SafeStep u s ⟨purgeDocs s.docs date, s.bins, s.scans⟩

/-- Reachability under arbitrary transitions. -/
def Reachable (u : UnicodeTables) : SysState → SysState → Prop :=
  Relation.ReflTransGen (Step u)

/-- Reachability under transitions whose uploads all succeed. -/
def SafeReachable (u : UnicodeTables) : SysState → SysState → Prop :=
  Relation.ReflTransGen (SafeStep u)

/-! ## The scan coordinator (`service.attemptAnalysis`)

`asyncAnalyze` fetches the byte stream once and `attemptAnalysis`
passes that same single-pass reader to every `Analyze` attempt, walking
the retry wait table. The model threads the reader cursor through the
attempts (each attempt may consume a prefix of what remains before
succeeding or failing) and records the calls made as an event trace. -/

/-- The retry wait table `service.AntivirusRetryWaitTimes`, in seconds. -/
def AntivirusRetryWaitTimes : List Nat := [5, 10, 15, 25, 40, 65]

/-- Observable events of one scan: an analysis attempt (with the bytes
the analyzer can see), a sleep, a status write, a bytes deletion. -/
inductive ScanEvent
  | analyze (i : Nat) (seen : List Nat)
  | sleep (v : Nat)
  | update (st : AnalysisStatus)
  | deleteBin
deriving Repr, DecidableEq

/-- Behavior of one `Analyze` call at attempt `i` on the remaining
stream: how many bytes it consumes, and a verdict on success or `none`
on error. -/
def AnalyzerBehavior := Nat → List Nat → Nat × Option AnalysisStatus

/-- The retry loop of `attemptAnalysis` over the remaining wait table:
analyze; on success update the status and, if the update succeeded,
delete the bytes and return; on failure sleep the table entry and
retry on the *same, partially consumed* stream. Returns the event
trace and whether the scan completed (status written and bytes
deleted). -/
def attemptLoop (beh : AnalyzerBehavior) (updateOk deleteOk : Bool) :
    List Nat → Nat → List Nat → List ScanEvent × Bool
  | [], _, _ => ([], false)
  | v :: vs, i, rem =>
    let r := beh i rem
    match r.2 with
    | some st =>
      if updateOk then
        (ScanEvent.analyze i rem :: ScanEvent.update st :: [ScanEvent.deleteBin], deleteOk)
      else
        ([ScanEvent.analyze i rem, ScanEvent.update st], false)
    | none =>
      let rest := attemptLoop beh updateOk deleteOk vs (i + 1) (rem.drop r.1)
      (ScanEvent.analyze i rem :: ScanEvent.sleep v :: rest.1, rest.2)

/-- `attemptAnalysis` on a freshly fetched stream holding `content`. -/
def attemptAnalysis (beh : AnalyzerBehavior) (updateOk deleteOk : Bool)
    (content : List Nat) : List ScanEvent × Bool :=
  attemptLoop beh updateOk deleteOk AntivirusRetryWaitTimes 0 content

/-- Whether an event is an analysis attempt. -/
def ScanEvent.isAnalyze : ScanEvent → Bool
  | .analyze _ _ => true
  | _ => false

/-- Number of analysis attempts in a trace. -/
def countAnalyze (tr : List ScanEvent) : Nat :=
  (tr.filter ScanEvent.isAnalyze).length

/-- The sleep durations that occur between two analysis attempts: a
sleep counts only when some later event is an attempt. -/
def gapsBetween : List ScanEvent → List Nat
  | [] => []
  | ScanEvent.sleep v :: rest =>
    if rest.any ScanEvent.isAnalyze then v :: gapsBetween rest else gapsBetween rest
  | _ :: rest => gapsBetween rest

/-- Whether a trace contains a status write. -/
def hasUpdate (tr : List ScanEvent) : Bool :=
  tr.any (fun e => match e with | .update _ => true | _ => false)

/-- Whether a trace contains a bytes deletion. -/
def hasDelete (tr : List ScanEvent) : Bool :=
  tr.any (fun e => match e with | .deleteBin => true | _ => false)

/-! ## Service construction (`service.New`) -/

/-- Default semaphore capacity (`service.DefaultSemaphoreCapacity`). -/
def DefaultSemaphoreCapacity : Nat := 128

/-- The configuration `service.New` derives from its arguments: whether
the retention sweeper goroutine is started, its tick period, and the
capacity of the scan semaphore channel. -/
structure ServiceConfig where
  autoPurge : Bool
  purgePeriod : Int
  semCapacity : Nat
deriving Repr, DecidableEq

/-- `service.New`: the sweeper starts exactly when the result
time-to-live is strictly positive and ticks with period equal to it;
the semaphore channel is created with capacity
`max(semaphoreCapacity, DefaultSemaphoreCapacity)`. -/
def newService (resTTL : Int) (semaphoreCapacity : Nat) : ServiceConfig :=
  { autoPurge := resTTL > 0,
    purgePeriod := resTTL,
    semCapacity := max semaphoreCapacity DefaultSemaphoreCapacity }

/-- One sweeper tick at instant `now`: purge every non-pending row
created before `now` minus the time-to-live (`Service.autoPurge`). -/
def autoPurgeTick (resTTL : Int) (docs : List Document) (now : Int) : List Document :=
  purgeDocs docs (now - resTTL)

/-! ## The scan semaphore

`asyncAnalyze` sends on the semaphore channel before starting a scan
body and receives from it when the body exits; a send on a channel of
capacity `cap` blocks while `cap` messages are outstanding. -/

/-- Semaphore transitions: acquire a slot (enabled while a slot is
free) or release a held slot. The state is the number of in-flight
scans. -/
inductive SemStep (cap : Nat) : Nat → Nat → Prop
  | acquire (n : Nat) (h : n < cap) : SemStep cap n (n + 1)
  | release (n : Nat) (h : 0 < n) : SemStep cap n (n - 1)

/-- Semaphore states reachable from idle. -/
def SemReachable (cap : Nat) : Nat → Prop :=
  Relation.ReflTransGen (SemStep cap) 0

/-! ## Lemmas about the retry loop -/

/-- A trace with no analysis attempt has no inter-attempt gaps. -/
theorem gapsBetween_eq_nil (tr : List ScanEvent)
    (h : tr.any ScanEvent.isAnalyze = false) : gapsBetween tr = [] := by
  induction tr with
  | nil => rfl
  | cons e rest ih =>
    simp only [List.any_cons, Bool.or_eq_false_iff] at h
    cases e with
    | sleep v => simp [gapsBetween, h.2, ih h.2]
    | analyze i seen => simp [ScanEvent.isAnalyze] at h
    | update st => simp [gapsBetween, ih h.2]
    | deleteBin => simp [gapsBetween, ih h.2]

/-- Attempt count of a trace headed by an analysis attempt. -/
theorem countAnalyze_cons_analyze (i : Nat) (seen : List Nat) (tr : List ScanEvent) :
    countAnalyze (ScanEvent.analyze i seen :: tr) = countAnalyze tr + 1 := by
  simp [countAnalyze, List.filter, ScanEvent.isAnalyze]

/-- Attempt count of a trace headed by a sleep. -/
theorem countAnalyze_cons_sleep (v : Nat) (tr : List ScanEvent) :
    countAnalyze (ScanEvent.sleep v :: tr) = countAnalyze tr := by
  simp [countAnalyze, List.filter, ScanEvent.isAnalyze]

/-- A trace with no analysis attempt counts zero attempts. -/
theorem countAnalyze_eq_zero (tr : List ScanEvent)
    (h : tr.any ScanEvent.isAnalyze = false) : countAnalyze tr = 0 := by
  unfold countAnalyze
  rw [List.length_eq_zero, List.filter_eq_nil_iff]
  rw [List.any_eq_false] at h
  exact h

/-- A trace with an analysis attempt counts at least one attempt. -/
theorem countAnalyze_ne_zero (tr : List ScanEvent)
    (h : tr.any ScanEvent.isAnalyze = true) : countAnalyze tr ≠ 0 := by
  obtain ⟨e, he, hp⟩ := List.any_eq_true.mp h
  have hmem : e ∈ tr.filter ScanEvent.isAnalyze := List.mem_filter.mpr ⟨he, hp⟩
  intro hlen
  unfold countAnalyze at hlen
  rw [List.length_eq_zero] at hlen
  simp [hlen] at hmem

/-- The retry loop makes at most one attempt per wait-table entry. -/
theorem attemptLoop_count_le (beh : AnalyzerBehavior) (uOk dOk : Bool) :
    ∀ (ws : List Nat) (i : Nat) (rem : List Nat),
      countAnalyze (attemptLoop beh uOk dOk ws i rem).1 ≤ ws.length := by
  intro ws
  induction ws with
  | nil => intro i rem; simp [attemptLoop, countAnalyze]
  | cons v vs ih =>
    intro i rem
    simp only [attemptLoop]
    cases hres : (beh i rem).2 with
    | some st =>
      cases uOk <;>
        simp [countAnalyze, List.filter, ScanEvent.isAnalyze, List.length_cons]
    | none =>
      have h := ih (i + 1) (rem.drop (beh i rem).1)
      simp only [countAnalyze_cons_analyze, countAnalyze_cons_sleep, List.length_cons]
      omega

/-- The sleeps lying between consecutive attempts are exactly the wait
entries consumed before the final attempt: one fewer than the number of
attempts made. -/
theorem attemptLoop_gaps (beh : AnalyzerBehavior) (uOk dOk : Bool) :
    ∀ (ws : List Nat) (i : Nat) (rem : List Nat),
      gapsBetween (attemptLoop beh uOk dOk ws i rem).1 =
        ws.take (countAnalyze (attemptLoop beh uOk dOk ws i rem).1 - 1) := by
  intro ws
  induction ws with
  | nil => intro i rem; simp [attemptLoop, countAnalyze, gapsBetween]
  | cons v vs ih =>
    intro i rem
    simp only [attemptLoop]
    cases hres : (beh i rem).2 with
    | some st =>
      cases uOk <;>
        simp [countAnalyze, List.filter, ScanEvent.isAnalyze, gapsBetween]
    | none =>
      have hgap := ih (i + 1) (rem.drop (beh i rem).1)
      set tr := (attemptLoop beh uOk dOk vs (i + 1) (rem.drop (beh i rem).1)).1 with htr
      simp only [gapsBetween, countAnalyze_cons_analyze, countAnalyze_cons_sleep]
      by_cases hany : tr.any ScanEvent.isAnalyze = true
      · have hpos : countAnalyze tr ≠ 0 := countAnalyze_ne_zero tr hany
        obtain ⟨m, hm⟩ := Nat.exists_eq_succ_of_ne_zero hpos
        rw [hany, if_pos rfl, hgap, hm]
        simp [List.take_succ_cons, Nat.succ_sub_one]
      · rw [Bool.not_eq_true] at hany
        have hzero : countAnalyze tr = 0 := countAnalyze_eq_zero tr hany
        rw [hany, if_neg (by simp), gapsBetween_eq_nil tr hany, hzero]
        simp

/-- A head element does not change the last element of a nonempty
trace. -/
theorem getLast?_cons_ne (a : ScanEvent) (l : List ScanEvent) (h : l ≠ []) :
    (a :: l).getLast? = l.getLast? := by
  cases l with
  | nil => exact absurd rfl h
  | cons b m => exact List.getLast?_cons_cons

/-- Shape of the retry loop when every attempt fails: one attempt per
wait entry, no status write, no bytes deletion, no completion, and the
trace ends with the sleep of the final wait entry. -/
theorem attemptLoop_allFail (beh : AnalyzerBehavior) (uOk dOk : Bool)
    (hfail : ∀ i rem, (beh i rem).2 = none) :
    ∀ (ws : List Nat) (i : Nat) (rem : List Nat),
      countAnalyze (attemptLoop beh uOk dOk ws i rem).1 = ws.length ∧
      hasUpdate (attemptLoop beh uOk dOk ws i rem).1 = false ∧
      hasDelete (attemptLoop beh uOk dOk ws i rem).1 = false ∧
      (attemptLoop beh uOk dOk ws i rem).2 = false ∧
      (attemptLoop beh uOk dOk ws i rem).1.getLast? = ws.getLast?.map ScanEvent.sleep := by
  intro ws
  induction ws with
  | nil =>
    intro i rem
    simp [attemptLoop, countAnalyze, hasUpdate, hasDelete]
  | cons v vs ih =>
    intro i rem
    have h := ih (i + 1) (rem.drop (beh i rem).1)
    simp only [attemptLoop, hfail i rem]
    obtain ⟨hc, hu, hd, hs, hl⟩ := h
    refine ⟨?_, ?_, ?_, hs, ?_⟩
    · rw [countAnalyze_cons_analyze, countAnalyze_cons_sleep, hc]
      simp
    · simpa [hasUpdate] using hu
    · simpa [hasDelete] using hd
    · cases hvs : vs with
      | nil =>
        subst hvs
        simp only [attemptLoop]
        rfl
      | cons w wsx =>
        subst hvs
        have hne : (attemptLoop beh uOk dOk (w :: wsx) (i + 1) (rem.drop (beh i rem).1)).1 ≠ [] := by
          simp only [attemptLoop, hfail]
          exact List.cons_ne_nil _ _
        rw [List.getLast?_cons_cons, getLast?_cons_ne _ _ hne, hl]
        simp [List.getLast?_cons_cons]

/-- Claim C4 counterexample: with an analyzer that fails every attempt,
the coordinator makes its six attempts but only five waits — 5, 10, 15,
25 and 40 seconds — fall between consecutive attempts; the table's
final 65-second entry is slept after the sixth failed attempt, not
between two attempts, so the inter-attempt wait sequence is not
5, 10, 15, 25, 40, 65 as claimed. -/
theorem C4_counterexample :
    countAnalyze (attemptAnalysis (fun _ _ => (0, none)) true true []).1 = 6 ∧
    gapsBetween (attemptAnalysis (fun _ _ => (0, none)) true true []).1 =
      [5, 10, 15, 25, 40] ∧
    gapsBetween (attemptAnalysis (fun _ _ => (0, none)) true true []).1 ≠
      AntivirusRetryWaitTimes := by
  decide

/-- Claim C4 (amended): for every analyzer behavior the coordinator
makes at most six attempts; the waits between consecutive attempts are
the wait-table entries consumed before the final attempt (5, 10, 15,
25, 40 when all six attempts run); and when every attempt fails, no
status update call and no byte deletion call is made, the scan does not
complete (the document stays pending), and the coordinator additionally
sleeps the final 65-second entry after the last failed attempt before
giving up. -/
theorem C4_retry_policy (beh : AnalyzerBehavior) (uOk dOk : Bool) (content : List Nat) :
    countAnalyze (attemptAnalysis beh uOk dOk content).1 ≤ 6 ∧
    gapsBetween (attemptAnalysis beh uOk dOk content).1 =
      AntivirusRetryWaitTimes.take (countAnalyze (attemptAnalysis beh uOk dOk content).1 - 1) ∧
    ((∀ i rem, (beh i rem).2 = none) →
      hasUpdate (attemptAnalysis beh uOk dOk content).1 = false ∧
      hasDelete (attemptAnalysis beh uOk dOk content).1 = false ∧
      (attemptAnalysis beh uOk dOk content).2 = false ∧
      (attemptAnalysis beh uOk dOk content).1.getLast? = some (ScanEvent.sleep 65)) := by
  refine ⟨?_, ?_, ?_⟩
  · simpa [AntivirusRetryWaitTimes] using
      attemptLoop_count_le beh uOk dOk AntivirusRetryWaitTimes 0 content
  · exact attemptLoop_gaps beh uOk dOk AntivirusRetryWaitTimes 0 content
  · intro hfail
    obtain ⟨_, hu, hd, hs, hl⟩ :=
      attemptLoop_allFail beh uOk dOk hfail AntivirusRetryWaitTimes 0 content
    exact ⟨hu, hd, hs, by simpa [AntivirusRetryWaitTimes] using hl⟩

/-- Claim C4 witness: the amended theorem applied to the all-failing
analyzer on an empty stream. -/
theorem C4_retry_policy_witness :
    hasUpdate (attemptAnalysis (fun _ _ => (0, none)) true true []).1 = false ∧
    hasDelete (attemptAnalysis (fun _ _ => (0, none)) true true []).1 = false ∧
    (attemptAnalysis (fun _ _ => (0, none)) true true []).2 = false ∧
    (attemptAnalysis (fun _ _ => (0, none)) true true []).1.getLast? =
      some (ScanEvent.sleep 65) :=
  (C4_retry_policy (fun _ _ => (0, none)) true true []).2.2 (fun _ _ => rfl)

/-- Claim C8: the coordinator acquires the byte stream once and passes
the same, never reset, single-pass reader to every attempt. With an
analyzer that consumes three bytes of a five-byte stream before its
first attempt fails, the second attempt observes only the two remaining
bytes — not the stream from the top as the specification requires. -/
theorem C8_no_stream_reset :
    (attemptAnalysis
        (fun i _ => if i = 0 then (3, none) else (0, some AnalysisStatus.clean))
        true true [1, 2, 3, 4, 5]).1 =
      [ScanEvent.analyze 0 [1, 2, 3, 4, 5], ScanEvent.sleep 5,
       ScanEvent.analyze 1 [4, 5], ScanEvent.update AnalysisStatus.clean,
       ScanEvent.deleteBin] ∧
    ([4, 5] : List Nat) ≠ [1, 2, 3, 4, 5] := by
  decide

/-- Claim C6: with a strictly positive result time-to-live the sweeper
is started with tick period equal to the time-to-live, and one tick at
instant `now` deletes exactly the documents created before `now` minus
the time-to-live whose status is not pending — pending documents are
never purged regardless of age; with a zero or negative time-to-live
the sweeper is never started. -/
theorem C6_retention_sweeper (resTTL : Int) (cap : Nat) (docs : List Document)
    (now : Int) (d : Document) (h : 0 < resTTL) :
    (newService resTTL cap).autoPurge = true ∧
    (newService resTTL cap).purgePeriod = resTTL ∧
    (d ∈ autoPurgeTick resTTL docs now ↔
      d ∈ docs ∧ ¬(d.CreatedAt < now - resTTL ∧ d.Status ≠ AnalysisStatus.pending)) ∧
    (d.Status = AnalysisStatus.pending → d ∈ docs → d ∈ autoPurgeTick resTTL docs now) ∧
    (∀ ttl : Int, ttl ≤ 0 → (newService ttl cap).autoPurge = false) := by
  refine ⟨by simp [newService, h], rfl, ?_, ?_, ?_⟩
  · simp only [autoPurgeTick, purgeDocs, List.mem_filter, decide_eq_true_eq]
  · intro hp hin
    simp only [autoPurgeTick, purgeDocs, List.mem_filter, decide_eq_true_eq]
    exact ⟨hin, fun hcon => hcon.2 hp⟩
  · intro ttl httl
    simp only [newService, decide_eq_false_iff_not]
    omega

/-- Claim C6 witness: the sweeper theorem at time-to-live 10 on a store
holding one old clean document and one old pending document; the clean
one is removed by the tick, the pending one survives. -/
theorem C6_retention_sweeper_witness :
    (0 : Int) < 10 ∧
    (newService 10 4).autoPurge = true ∧
    ((⟨[], [], [], AnalysisStatus.pending, 0, 0⟩ : Document) ∈
      autoPurgeTick 10 [⟨[], [], [], AnalysisStatus.pending, 0, 0⟩,
        ⟨['x'], [], [], AnalysisStatus.clean, 1, 0⟩] 100) ∧
    ((⟨['x'], [], [], AnalysisStatus.clean, 1, 0⟩ : Document) ∉
      autoPurgeTick 10 [⟨[], [], [], AnalysisStatus.pending, 0, 0⟩,
        ⟨['x'], [], [], AnalysisStatus.clean, 1, 0⟩] 100) := by
  refine ⟨by decide,
    (C6_retention_sweeper 10 4
      [⟨[], [], [], AnalysisStatus.pending, 0, 0⟩, ⟨['x'], [], [], AnalysisStatus.clean, 1, 0⟩]
      100 ⟨[], [], [], AnalysisStatus.pending, 0, 0⟩ (by decide)).1, ?_, ?_⟩
  · exact (C6_retention_sweeper 10 4
      [⟨[], [], [], AnalysisStatus.pending, 0, 0⟩, ⟨['x'], [], [], AnalysisStatus.clean, 1, 0⟩]
      100 ⟨[], [], [], AnalysisStatus.pending, 0, 0⟩ (by decide)).2.2.2.1 rfl (by decide)
  · intro hmem
    have h := ((C6_retention_sweeper 10 4
      [⟨[], [], [], AnalysisStatus.pending, 0, 0⟩, ⟨['x'], [], [], AnalysisStatus.clean, 1, 0⟩]
      100 ⟨['x'], [], [], AnalysisStatus.clean, 1, 0⟩ (by decide)).2.2.1.mp hmem).2
    exact h (by decide)

/-- Claim C7 counterexample: the semaphore channel is created with
capacity `max(configured, 128)`, so a configured capacity of 1 yields a
gate of capacity 128, not 1: a second scheduled scan is not held back
by the first. -/
theorem C7_counterexample :
    (newService 1 1).semCapacity = 128 ∧ (newService 1 1).semCapacity ≠ 1 := by
  decide

/-- Claim C7 (amended): the scan gate's capacity is the maximum of the
configured capacity and the default 128, and the number of in-flight
scans never exceeds that capacity in any reachable semaphore state. -/
theorem C7_semaphore_bound (resTTL : Int) (c : Nat) (n : Nat)
    (h : SemReachable (newService resTTL c).semCapacity n) :
    (newService resTTL c).semCapacity = max c DefaultSemaphoreCapacity ∧
    n ≤ (newService resTTL c).semCapacity := by
  refine ⟨rfl, ?_⟩
  induction h with
  | refl => exact Nat.zero_le _
  | tail _ st ih =>
    cases st with
    | acquire hm => omega
    | release hm => omega

/-- Claim C7 witness: with configured capacity 1 the gate capacity is
128, and the state after one acquisition is within bounds. -/
theorem C7_semaphore_bound_witness :
    (newService 1 1).semCapacity = max 1 DefaultSemaphoreCapacity ∧
    1 ≤ (newService 1 1).semCapacity :=
  C7_semaphore_bound 1 1 1
    (Relation.ReflTransGen.single (SemStep.acquire 0 (by decide)))

/-! ## Lemmas about the derived hash and id -/

/-- The hash `Upload` takes from the untouched crypto writer is the
digest of the empty byte string. -/
theorem generateHash_fst (tag : List Char) :
    (CryptoWriter.GenerateHashAndID NewCryptoWriter tag).1 = uploadHashValue := rfl

/-- The id `Upload` takes from the untouched crypto writer is the
digest of the tag bytes alone. -/
theorem generateHash_snd (tag : List Char) :
    (CryptoWriter.GenerateHashAndID NewCryptoWriter tag).2 = uploadIdOf tag := rfl

/-- Any document row inserted by `Upload` carries the derived id, the
derived hash, the sanitized tag, the call's creation instant, and a
repository insert that succeeded; its status is pending for a fresh
document, or copied together with the analysis date from the document
found by hash. -/
theorem upload_savedDoc_shape (u : UnicodeTables)
    (gbh : List Char → Option Document) (sb : List Char → Bool)
    (sd : Document → SaveOutcome) (data : List Nat) (size : Nat)
    (tag : List Char) (now : Int) (d : Document)
    (h : (Upload u gbh sb sd data size tag now).2.savedDoc = some d) :
    d.ID = uploadIdOf (Sanitize u tag) ∧ d.Hash = uploadHashValue ∧
    d.Tag = Sanitize u tag ∧ d.CreatedAt = now ∧ sd d = .ok ∧
    (d.Status = .pending ∨
      ∃ ed, gbh uploadHashValue = some ed ∧ d.Status = ed.Status ∧
        d.AnalyzedAt = ed.AnalyzedAt) := by
  simp only [Upload] at h
  rw [generateHash_fst, generateHash_snd] at h
  cases hg : gbh uploadHashValue with
  | none =>
    simp only [hg] at h
    simp only [uploadTail] at h
    by_cases hsb : sb (uploadIdOf (Sanitize u tag)) = true
    · rw [if_pos hsb] at h
      cases hsd : sd (NewDocument (uploadIdOf (Sanitize u tag)) uploadHashValue (Sanitize u tag) now) with
      | ok =>
        rw [hsd] at h
        cases h
        exact ⟨rfl, rfl, rfl, rfl, hsd, Or.inl rfl⟩
      | alreadyExists => rw [hsd] at h; cases h
      | failed => rw [hsd] at h; cases h
    · rw [if_neg hsb] at h
      cases h
  | some ed =>
    simp only [hg] at h
    by_cases htag : ed.Tag = Sanitize u tag
    · rw [if_pos htag] at h
      cases h
    · rw [if_neg htag] at h
      by_cases hst : ed.Status = AnalysisStatus.pending
      · rw [if_neg (by simp [hst])] at h
        simp only [uploadTail] at h
        by_cases hsb : sb (uploadIdOf (Sanitize u tag)) = true
        · rw [if_pos hsb] at h
          cases hsd : sd (NewDocument (uploadIdOf (Sanitize u tag)) uploadHashValue (Sanitize u tag) now) with
          | ok =>
            rw [hsd] at h
            cases h
            exact ⟨rfl, rfl, rfl, rfl, hsd, Or.inl rfl⟩
          | alreadyExists => rw [hsd] at h; cases h
          | failed => rw [hsd] at h; cases h
        · rw [if_neg hsb] at h
          cases h
      · rw [if_pos (by simp [hst])] at h
        cases hsd : sd ⟨uploadIdOf (Sanitize u tag), uploadHashValue, Sanitize u tag,
            ed.Status, ed.AnalyzedAt, now⟩ with
        | ok =>
          rw [hsd] at h
          cases h
          exact ⟨rfl, rfl, rfl, rfl, hsd, Or.inr ⟨ed, rfl, rfl, rfl⟩⟩
        | alreadyExists => rw [hsd] at h; cases h
        | failed => rw [hsd] at h; cases h

/-- Claim C9 counterexample: in the losing half of the duplicate-id
race (the hash lookup still sees nothing, the bytes store, then the
metadata insert fails with the already-exists condition), `Upload`
surfaces a fatal upload error with an empty id rather than returning
the existing id with the already-exists outcome. -/
theorem C9_counterexample :
    (Upload asciiTables (fun _ => none) (fun _ => true) (fun _ => .alreadyExists)
      [1] 1 "a".toList 0).1 = UploadResult.uploadError ∧
    ∀ i, (Upload asciiTables (fun _ => none) (fun _ => true) (fun _ => .alreadyExists)
      [1] 1 "a".toList 0).1 ≠ UploadResult.existing i := by
  refine ⟨by decide, ?_⟩
  intro i h
  rw [show (Upload asciiTables (fun _ => none) (fun _ => true) (fun _ => .alreadyExists)
      [1] 1 "a".toList 0).1 = UploadResult.uploadError by decide] at h
  cases h

/-- Claim C9 (amended): when the metadata save performed during
`Upload` on the fresh-content path fails with the already-exists
condition, `Upload` aborts with a fatal upload error — it does not
reconcile the race into a success-with-existing-id. -/
theorem C9_duplicate_save_aborts (u : UnicodeTables)
    (gbh : List Char → Option Document) (sb : List Char → Bool)
    (sd : Document → SaveOutcome) (data : List Nat) (size : Nat)
    (tag : List Char) (now : Int)
    (hf : gbh uploadHashValue = none)
    (hb : sb (uploadIdOf (Sanitize u tag)) = true)
    (hs : sd (NewDocument (uploadIdOf (Sanitize u tag)) uploadHashValue
      (Sanitize u tag) now) = .alreadyExists) :
    (Upload u gbh sb sd data size tag now).1 = UploadResult.uploadError := by
  simp only [Upload]
  rw [generateHash_fst, generateHash_snd, hf]
  simp only [uploadTail]
  rw [if_pos hb, hs]

/-- Claim C9 witness: the amended theorem at a concrete losing race. -/
theorem C9_duplicate_save_aborts_witness :
    (Upload asciiTables (fun _ => none) (fun _ => true) (fun _ => .alreadyExists)
      [2] 1 "b".toList 5).1 = UploadResult.uploadError :=
  C9_duplicate_save_aborts asciiTables (fun _ => none) (fun _ => true)
    (fun _ => .alreadyExists) [2] 1 "b".toList 5 rfl rfl rfl

/-! ## Lemmas about sanitization -/

/-- Unfolding of the UTF-8 encoding of a cons. -/
theorem utf8Encode_cons (c : Char) (l : List Char) :
    utf8Encode (c :: l) = utf8EncodeChar c ++ utf8Encode l := rfl

/-- The byte-budget truncation emits at most the budget in bytes. -/
theorem utf8_byteTruncate_le (l : List Char) :
    ∀ budget : Nat, (utf8Encode (byteTruncate budget l)).length ≤ budget := by
  induction l with
  | nil => intro budget; simp [byteTruncate, utf8Encode]
  | cons c cs ih =>
    intro budget
    simp only [byteTruncate]
    split
    · next hle =>
      rw [utf8Encode_cons, List.length_append]
      have h := ih (budget - (utf8EncodeChar c).length)
      omega
    · simp [utf8Encode]

/-- The per-rune sanitize action never grows a rune's UTF-8 size. -/
theorem sanitizeChar_size_le (u : UnicodeTables) (c c' : Char)
    (h : sanitizeChar u c = some c') :
    (utf8EncodeChar c').length ≤ (utf8EncodeChar c).length := by
  unfold sanitizeChar at h
  split at h
  · cases h; exact le_refl _
  · split at h
    · next hsp =>
      cases h
      have hc : c = ' ' := by simpa using hsp
      subst hc
      decide
    · cases h

/-- Filtering through the sanitize action never grows the byte size. -/
theorem utf8_filterMap_le (u : UnicodeTables) (l : List Char) :
    (utf8Encode (l.filterMap (sanitizeChar u))).length ≤ (utf8Encode l).length := by
  induction l with
  | nil => simp
  | cons c cs ih =>
    cases hsc : sanitizeChar u c with
    | none =>
      simp only [List.filterMap_cons, hsc]
      rw [utf8Encode_cons, List.length_append]
      omega
    | some c' =>
      simp only [List.filterMap_cons, hsc]
      rw [utf8Encode_cons, utf8Encode_cons, List.length_append, List.length_append]
      have := sanitizeChar_size_le u c c' hsc
      omega

/-- The underscore is always in the kept alphabet. -/
theorem keepRune_underscore (u : UnicodeTables) : keepRune u '_' = true := by
  unfold keepRune
  rw [show (('_' : Char) == '_') = true from rfl]
  simp

/-- Every rune of a sanitized tag belongs to the kept alphabet. -/
theorem sanitize_mem_keep (u : UnicodeTables) (tag : List Char) :
    ∀ c ∈ Sanitize u tag, keepRune u c = true := by
  intro c hc
  unfold Sanitize at hc
  obtain ⟨a, _, hsc⟩ := List.mem_filterMap.mp hc
  unfold sanitizeChar at hsc
  split at hsc
  · next hk => cases hsc; exact hk
  · split at hsc
    · cases hsc
      exact keepRune_underscore u
    · cases hsc

/-- Claim C10: sanitization truncates the tag to the 128-byte maximum
first and then maps each rune — keeping letters, digits, `-`, `_` and
`.` verbatim, sending space to `_`, dropping everything else (stated
for classifier tables under which the space is not kept, as in Go's
Unicode tables); the sanitized value stays within the byte budget,
consists only of kept runes, and is both the tag stored on every
document row `Upload` inserts and the value mixed into the id
derivation. -/
theorem C10_sanitize (u : UnicodeTables) (tag : List Char)
    (hsp : keepRune u ' ' = false) :
    Sanitize u tag = (byteTruncate TagMaxLength tag).filterMap (sanitizeChar u) ∧
    sanitizeChar u ' ' = some '_' ∧
    (∀ c, keepRune u c = true → sanitizeChar u c = some c) ∧
    (∀ c, keepRune u c = false → c ≠ ' ' → sanitizeChar u c = none) ∧
    (utf8Encode (Sanitize u tag)).length ≤ TagMaxLength ∧
    (∀ c ∈ Sanitize u tag, keepRune u c = true) ∧
    (∀ gbh sb sd data size now d,
      (Upload u gbh sb sd data size tag now).2.savedDoc = some d →
      d.Tag = Sanitize u tag ∧ d.ID = uploadIdOf (Sanitize u tag)) := by
  refine ⟨rfl, ?_, ?_, ?_, ?_, sanitize_mem_keep u tag, ?_⟩
  · simp [sanitizeChar, hsp]
  · intro c h
    simp [sanitizeChar, h]
  · intro c h hne
    simp [sanitizeChar, h, hne]
  · calc (utf8Encode (Sanitize u tag)).length
        ≤ (utf8Encode (byteTruncate TagMaxLength tag)).length :=
          utf8_filterMap_le u (byteTruncate TagMaxLength tag)
      _ ≤ TagMaxLength := utf8_byteTruncate_le tag TagMaxLength
  · intro gbh sb sd data size now d h
    have hs := upload_savedDoc_shape u gbh sb sd data size tag now d h
    exact ⟨hs.2.2.1, hs.1⟩

/-- Claim C10 witness: the sanitizer theorem at the ASCII tables on a
concrete tag, together with a concrete evaluation showing truncation
and per-rune mapping. -/
theorem C10_sanitize_witness :
    Sanitize asciiTables " a b!.txt ".toList = "_a_b.txt_".toList ∧
    sanitizeChar asciiTables ' ' = some '_' ∧
    (utf8Encode (Sanitize asciiTables " a b!.txt ".toList)).length ≤ TagMaxLength := by
  refine ⟨by decide, (C10_sanitize asciiTables " a b!.txt ".toList (by decide)).2.1,
    (C10_sanitize asciiTables " a b!.txt ".toList (by decide)).2.2.2.2.1⟩

/-- Claim C1: `Upload` finalizes both digests before anything reads the
teed stream (`io.TeeReader` writes through only on reads, and
`GenerateHashAndID` is called immediately after wrapping the stream),
so the stored hash is the SHA-256 of the empty string — not of the
first `size` bytes — and the id is the MD5 of the sanitized tag alone —
not of the content concatenated with the tag. Uploading the two
distinct one-byte payloads 0x61 and 0x62 under the same tag yields the
same hash and the same id, while the digests of the actual content
differ; the content bytes pass through the tee only later, when the
binary store reads the stream. -/
theorem C1_digests_ignore_content :
    (Upload asciiTables (fun _ => none) (fun _ => true) (fun _ => .ok)
        [97] 1 "t".toList 0).2.savedDoc.map Document.Hash = some uploadHashValue ∧
    (Upload asciiTables (fun _ => none) (fun _ => true) (fun _ => .ok)
        [98] 1 "t".toList 0).2.savedDoc.map Document.Hash = some uploadHashValue ∧
    uploadHashValue = hexEncode (sha256 []) ∧
    hexEncode (sha256 [97]) ≠ uploadHashValue ∧
    hexEncode (sha256 [98]) ≠ hexEncode (sha256 [97]) ∧
    (Upload asciiTables (fun _ => none) (fun _ => true) (fun _ => .ok)
        [97] 1 "t".toList 0).2.savedDoc.map Document.ID =
      (Upload asciiTables (fun _ => none) (fun _ => true) (fun _ => .ok)
        [98] 1 "t".toList 0).2.savedDoc.map Document.ID ∧
    (Upload asciiTables (fun _ => none) (fun _ => true) (fun _ => .ok)
        [97] 1 "t".toList 0).2.savedDoc.map Document.ID =
      some (uploadIdOf (Sanitize asciiTables "t".toList)) ∧
    b64urlEncode (md5 ([97] ++ utf8Encode (Sanitize asciiTables "t".toList))) ≠
      uploadIdOf (Sanitize asciiTables "t".toList) ∧
    (Upload asciiTables (fun _ => none) (fun _ => true) (fun _ => .ok)
        [97] 1 "t".toList 0).2.teeWritten = [97] := by
  decide

/-! ## Lemmas about the repository model -/

/-- A metadata insert succeeds exactly when no stored row carries the
same id. -/
theorem mockSaveDoc_ok_iff (docs : List Document) (d : Document) :
    mockSaveDoc docs d = .ok ↔ ∀ e ∈ docs, e.ID ≠ d.ID := by
  unfold mockSaveDoc
  by_cases hany : docs.any (fun e => e.ID = d.ID) = true
  · rw [if_pos hany]
    constructor
    · intro h; cases h
    · intro hall
      obtain ⟨e, he, hee⟩ := List.any_eq_true.mp hany
      exact absurd (by simpa using hee) (hall e he)
  · rw [if_neg hany]
    refine ⟨fun _ e he hee => ?_, fun _ => rfl⟩
    rw [Bool.not_eq_true, List.any_eq_false] at hany
    exact hany e he (by simpa using hee)

/-- Membership in the binary store after an insert. -/
theorem mem_binInsert (bins : List (List Char)) (i j : List Char) :
    j ∈ binInsert bins i ↔ j = i ∨ j ∈ bins := by
  unfold binInsert
  split
  · next hmem => exact ⟨Or.inr, fun h => h.elim (fun he => he ▸ hmem) id⟩
  · exact List.mem_cons

/-- Membership in the binary store after a delete. -/
theorem mem_binDelete (bins : List (List Char)) (i j : List Char) :
    j ∈ binDelete bins i ↔ j ∈ bins ∧ j ≠ i := by
  unfold binDelete
  rw [List.mem_filter]
  simp

/-- The caller-visible id of an upload result, when there is one. -/
def resultId : UploadResult → Option (List Char)
  | .created i => some i
  | .existing i => some i
  | .uploadError => none

/-- Whether an upload reported the already-exists outcome. -/
def isExisting : UploadResult → Bool
  | .existing _ => true
  | _ => false

/-- Claim C3: when the hash lookup returns a document with a different
sanitized tag whose status is not pending, and the derived id is free,
`Upload` inserts exactly one new row carrying the existing document's
status and analysis date, the id derived from the new tag, and the
call's instant as creation date; it stores no bytes, schedules no scan,
and returns the new id with the already-exists outcome. -/
theorem C3_verdict_propagation (u : UnicodeTables) (s : SysState)
    (data : List Nat) (size : Nat) (tag : List Char) (now : Int) (d : Document)
    (hfb : findByHash s.docs uploadHashValue = some d)
    (htag : d.Tag ≠ Sanitize u tag)
    (hst : d.Status ≠ AnalysisStatus.pending)
    (hid : ∀ e ∈ s.docs, e.ID ≠ uploadIdOf (Sanitize u tag)) :
    (uploadStep u s data size tag now).1 =
      UploadResult.existing (uploadIdOf (Sanitize u tag)) ∧
    (uploadStep u s data size tag now).2 =
      ⟨s.docs ++ [⟨uploadIdOf (Sanitize u tag), uploadHashValue, Sanitize u tag,
        d.Status, d.AnalyzedAt, now⟩], s.bins, s.scans⟩ := by
  have hsv : mockSaveDoc s.docs ⟨uploadIdOf (Sanitize u tag), uploadHashValue,
      Sanitize u tag, d.Status, d.AnalyzedAt, now⟩ = .ok :=
    (mockSaveDoc_ok_iff _ _).mpr hid
  obtain ⟨docs, bins, scans⟩ := s
  simp only [uploadStep, Upload]
  rw [generateHash_fst, generateHash_snd]
  simp only [findByHash] at hfb
  simp only [findByHash, hfb, if_neg htag, if_pos hst, hsv]
  simp [applyEffects]

/-- Claim C3 witness: propagation of a clean verdict under a new tag at
a concrete store holding one analyzed document. -/
theorem C3_verdict_propagation_witness :
    (uploadStep asciiTables
        ⟨[⟨uploadIdOf (Sanitize asciiTables "a".toList), uploadHashValue,
           Sanitize asciiTables "a".toList, AnalysisStatus.clean, 7, 1⟩], [], []⟩
        [5] 1 "b".toList 9).1 =
      UploadResult.existing (uploadIdOf (Sanitize asciiTables "b".toList)) ∧
    (uploadStep asciiTables
        ⟨[⟨uploadIdOf (Sanitize asciiTables "a".toList), uploadHashValue,
           Sanitize asciiTables "a".toList, AnalysisStatus.clean, 7, 1⟩], [], []⟩
        [5] 1 "b".toList 9).2 =
      ⟨[⟨uploadIdOf (Sanitize asciiTables "a".toList), uploadHashValue,
          Sanitize asciiTables "a".toList, AnalysisStatus.clean, 7, 1⟩] ++
        [⟨uploadIdOf (Sanitize asciiTables "b".toList), uploadHashValue,
          Sanitize asciiTables "b".toList, AnalysisStatus.clean, 7, 9⟩], [], []⟩ :=
  C3_verdict_propagation asciiTables
    ⟨[⟨uploadIdOf (Sanitize asciiTables "a".toList), uploadHashValue,
       Sanitize asciiTables "a".toList, AnalysisStatus.clean, 7, 1⟩], [], []⟩
    [5] 1 "b".toList 9
    ⟨uploadIdOf (Sanitize asciiTables "a".toList), uploadHashValue,
     Sanitize asciiTables "a".toList, AnalysisStatus.clean, 7, 1⟩
    (by decide) (by decide) (by decide) (by decide)

/-- Claim C2 (amended): uploading the same payload and tag twice
returns the same id both times, with the second call reporting the
already-exists outcome and leaving both stores and the scan queue
untouched — provided the store's hash lookup does not resolve to a row
with a *different* tag: either no row with the derived hash exists and
the derived id is free, or the row the lookup returns carries the same
sanitized tag. -/
theorem C2_reupload_same_tag (u : UnicodeTables) (s : SysState)
    (data1 data2 : List Nat) (size1 size2 : Nat) (tag : List Char) (now1 now2 : Int)
    (hsome : ∀ d, findByHash s.docs uploadHashValue = some d → d.Tag = Sanitize u tag)
    (hnone : findByHash s.docs uploadHashValue = none →
      ∀ d ∈ s.docs, d.ID ≠ uploadIdOf (Sanitize u tag)) :
    (uploadStep u s data1 size1 tag now1).1 ≠ UploadResult.uploadError ∧
    resultId (uploadStep u (uploadStep u s data1 size1 tag now1).2 data2 size2 tag now2).1 =
      resultId (uploadStep u s data1 size1 tag now1).1 ∧
    isExisting (uploadStep u (uploadStep u s data1 size1 tag now1).2 data2 size2 tag now2).1 =
      true ∧
    (uploadStep u (uploadStep u s data1 size1 tag now1).2 data2 size2 tag now2).2 =
      (uploadStep u s data1 size1 tag now1).2 := by
  obtain ⟨docs, bins, scans⟩ := s
  cases hfb : findByHash docs uploadHashValue with
  | some d =>
    have htag : d.Tag = Sanitize u tag := hsome d hfb
    have key : ∀ (dat : List Nat) (sz : Nat) (t : Int),
        uploadStep u ⟨docs, bins, scans⟩ dat sz tag t = (UploadResult.existing d.ID, ⟨docs, bins, scans⟩) := by
      intro dat sz t
      simp only [uploadStep, Upload]
      rw [generateHash_fst, generateHash_snd]
      simp only [findByHash] at hfb
      simp only [findByHash, hfb, if_pos htag]
      simp [applyEffects]
    simp only [key]
    simp [resultId, isExisting]
  | none =>
    have hid := hnone hfb
    have hsv : mockSaveDoc docs (NewDocument (uploadIdOf (Sanitize u tag)) uploadHashValue
        (Sanitize u tag) now1) = .ok :=
      (mockSaveDoc_ok_iff _ _).mpr hid
    have key1 : uploadStep u ⟨docs, bins, scans⟩ data1 size1 tag now1 =
        (UploadResult.created (uploadIdOf (Sanitize u tag)),
         ⟨docs ++ [NewDocument (uploadIdOf (Sanitize u tag)) uploadHashValue (Sanitize u tag) now1],
          binInsert bins (uploadIdOf (Sanitize u tag)),
          scans ++ [uploadIdOf (Sanitize u tag)]⟩) := by
      simp only [uploadStep, Upload]
      rw [generateHash_fst, generateHash_snd]
      simp only [findByHash] at hfb
      simp only [findByHash, hfb, uploadTail, hsv]
      simp [applyEffects]
    have hfb2 : findByHash (docs ++ [NewDocument (uploadIdOf (Sanitize u tag)) uploadHashValue
        (Sanitize u tag) now1]) uploadHashValue =
        some (NewDocument (uploadIdOf (Sanitize u tag)) uploadHashValue (Sanitize u tag) now1) := by
      unfold findByHash at hfb ⊢
      rw [List.find?_append, hfb]
      simp [NewDocument]
    have key2 : uploadStep u
        ⟨docs ++ [NewDocument (uploadIdOf (Sanitize u tag)) uploadHashValue (Sanitize u tag) now1],
         binInsert bins (uploadIdOf (Sanitize u tag)),
         scans ++ [uploadIdOf (Sanitize u tag)]⟩ data2 size2 tag now2 =
        (UploadResult.existing (uploadIdOf (Sanitize u tag)),
         ⟨docs ++ [NewDocument (uploadIdOf (Sanitize u tag)) uploadHashValue (Sanitize u tag) now1],
          binInsert bins (uploadIdOf (Sanitize u tag)),
          scans ++ [uploadIdOf (Sanitize u tag)]⟩) := by
      simp only [uploadStep, Upload]
      rw [generateHash_fst, generateHash_snd]
      simp only [findByHash] at hfb2
      simp only [findByHash, hfb2]
      rw [if_pos (show (NewDocument (uploadIdOf (Sanitize u tag)) uploadHashValue
        (Sanitize u tag) now1).Tag = Sanitize u tag from rfl)]
      simp [applyEffects, NewDocument]
    rw [key1]
    rw [show (UploadResult.created (uploadIdOf (Sanitize u tag)),
         (⟨docs ++ [NewDocument (uploadIdOf (Sanitize u tag)) uploadHashValue (Sanitize u tag) now1],
          binInsert bins (uploadIdOf (Sanitize u tag)),
          scans ++ [uploadIdOf (Sanitize u tag)]⟩ : SysState)).2 =
        ⟨docs ++ [NewDocument (uploadIdOf (Sanitize u tag)) uploadHashValue (Sanitize u tag) now1],
          binInsert bins (uploadIdOf (Sanitize u tag)),
          scans ++ [uploadIdOf (Sanitize u tag)]⟩ from rfl]
    rw [key2]
    exact ⟨by simp, rfl, rfl, rfl⟩

/-- Claim C2 witness: the amended theorem on a fresh store — the first
upload creates, the second returns the same id with the already-exists
outcome and changes nothing. -/
theorem C2_reupload_same_tag_witness :
    (uploadStep asciiTables initState [1] 1 "a".toList 0).1 ≠ UploadResult.uploadError ∧
    resultId (uploadStep asciiTables (uploadStep asciiTables initState [1] 1 "a".toList 0).2
        [1] 1 "a".toList 2).1 =
      resultId (uploadStep asciiTables initState [1] 1 "a".toList 0).1 ∧
    isExisting (uploadStep asciiTables (uploadStep asciiTables initState [1] 1 "a".toList 0).2
        [1] 1 "a".toList 2).1 = true ∧
    (uploadStep asciiTables (uploadStep asciiTables initState [1] 1 "a".toList 0).2
        [1] 1 "a".toList 2).2 =
      (uploadStep asciiTables initState [1] 1 "a".toList 0).2 :=
  C2_reupload_same_tag asciiTables initState [1] [1] 1 1 "a".toList 0 2
    (fun d h => by cases h) (fun _ d h => by cases h)

/-- First intermediate state of the claim C2 counterexample run: one
document uploaded under tag a. -/
def c2State1 : SysState := (uploadStep asciiTables initState [1] 1 "a".toList 0).2

/-- Second intermediate state: that document's scan has completed with
a clean verdict. -/
def c2State2 : SysState :=
  ⟨updateStatusDocs c2State1.docs (uploadIdOf (Sanitize asciiTables "a".toList))
    AnalysisStatus.clean 1,
   binDelete c2State1.bins (uploadIdOf (Sanitize asciiTables "a".toList)),
   c2State1.scans⟩

/-- Claim C2 counterexample: from the reachable store holding one
analyzed document under tag a, uploading the same payload twice under
tag b breaks the claim — every document shares the one derived hash, so
the first call hits the verdict-propagation branch and returns the new
id with already-exists, and the second call finds the tag-a row first
again, tries to insert the tag-b row a second time, and aborts with a
fatal upload error instead of returning the id again. -/
theorem C2_counterexample :
    Reachable asciiTables initState c2State2 ∧
    isExisting (uploadStep asciiTables c2State2 [1] 1 "b".toList 2).1 = true ∧
    (uploadStep asciiTables (uploadStep asciiTables c2State2 [1] 1 "b".toList 2).2
      [1] 1 "b".toList 3).1 = UploadResult.uploadError := by
  refine ⟨?_, by decide, by decide⟩
  exact Relation.ReflTransGen.tail
    (Relation.ReflTransGen.single (Step.upload initState [1] 1 "a".toList 0))
    (Step.scanComplete c2State1 (uploadIdOf (Sanitize asciiTables "a".toList))
      AnalysisStatus.clean 1 (by decide))

/-! ## The bytes-only-while-pending invariant (claim C5) -/

/-- Every non-pending document has no backing bytes. -/
def BytesOnlyWhilePending (s : SysState) : Prop :=
  ∀ d ∈ s.docs, d.Status ≠ AnalysisStatus.pending → d.ID ∉ s.bins

/-- Every id holding bytes belongs to a pending document. -/
def BinsPendingBacked (s : SysState) : Prop :=
  ∀ i ∈ s.bins, ∃ d ∈ s.docs, d.ID = i ∧ d.Status = AnalysisStatus.pending

/-- Whether every bytes deletion in a trace is preceded by a status
write; the flag carries whether a write has been seen. -/
def deleteAfterUpdate : Bool → List ScanEvent → Bool
  | _, [] => true
  | seen, ScanEvent.deleteBin :: rest => seen && deleteAfterUpdate seen rest
  | _, ScanEvent.update _ :: rest => deleteAfterUpdate true rest
  | seen, _ :: rest => deleteAfterUpdate seen rest

/-- In every retry-loop trace, the bytes deletion only ever follows the
status write. -/
theorem deleteAfterUpdate_attemptLoop (beh : AnalyzerBehavior) (uOk dOk : Bool) :
    ∀ (ws : List Nat) (i : Nat) (rem : List Nat) (seen : Bool),
      deleteAfterUpdate seen (attemptLoop beh uOk dOk ws i rem).1 = true := by
  intro ws
  induction ws with
  | nil => intro i rem seen; rfl
  | cons v vs ih =>
    intro i rem seen
    simp only [attemptLoop]
    cases hres : (beh i rem).2 with
    | some st =>
      cases uOk <;> cases seen <;> simp [deleteAfterUpdate]
    | none =>
      simp only [deleteAfterUpdate]
      exact ih (i + 1) _ seen

/-- Case analysis of one upload against the store: short-circuit on a
same-tag row, verdict propagation on a different-tag analyzed row,
fresh creation, or a fatal error (which may still leave freshly stored
bytes behind, since nothing rolls the binary save back). -/
theorem uploadStep_shape (u : UnicodeTables) (docs : List Document)
    (bins scans : List (List Char)) (data : List Nat) (size : Nat)
    (tag : List Char) (now : Int) :
    (∃ ed, findByHash docs uploadHashValue = some ed ∧
      uploadStep u ⟨docs, bins, scans⟩ data size tag now =
        (UploadResult.existing ed.ID, ⟨docs, bins, scans⟩)) ∨
    (∃ ed, findByHash docs uploadHashValue = some ed ∧
      (∀ e ∈ docs, e.ID ≠ uploadIdOf (Sanitize u tag)) ∧
      uploadStep u ⟨docs, bins, scans⟩ data size tag now =
        (UploadResult.existing (uploadIdOf (Sanitize u tag)),
         ⟨docs ++ [⟨uploadIdOf (Sanitize u tag), uploadHashValue, Sanitize u tag,
            ed.Status, ed.AnalyzedAt, now⟩], bins, scans⟩)) ∨
    ((∀ e ∈ docs, e.ID ≠ uploadIdOf (Sanitize u tag)) ∧
      uploadStep u ⟨docs, bins, scans⟩ data size tag now =
        (UploadResult.created (uploadIdOf (Sanitize u tag)),
         ⟨docs ++ [NewDocument (uploadIdOf (Sanitize u tag)) uploadHashValue
            (Sanitize u tag) now],
          binInsert bins (uploadIdOf (Sanitize u tag)),
          scans ++ [uploadIdOf (Sanitize u tag)]⟩)) ∨
    ((uploadStep u ⟨docs, bins, scans⟩ data size tag now).1 = UploadResult.uploadError ∧
      ((uploadStep u ⟨docs, bins, scans⟩ data size tag now).2 = ⟨docs, bins, scans⟩ ∨
       (uploadStep u ⟨docs, bins, scans⟩ data size tag now).2 =
         ⟨docs, binInsert bins (uploadIdOf (Sanitize u tag)), scans⟩)) := by
  cases hfb : findByHash docs uploadHashValue with
  | some ed =>
    simp only [findByHash] at hfb
    by_cases htag : ed.Tag = Sanitize u tag
    · refine Or.inl ⟨ed, rfl, ?_⟩
      simp only [uploadStep, Upload]
      rw [generateHash_fst, generateHash_snd]
      simp only [findByHash, hfb]
      rw [if_pos htag]
      simp [applyEffects]
    · by_cases hst : ed.Status = AnalysisStatus.pending
      · have hnn : ¬(ed.Status ≠ AnalysisStatus.pending) := fun hc => hc hst
        cases hsv : mockSaveDoc docs (NewDocument (uploadIdOf (Sanitize u tag))
            uploadHashValue (Sanitize u tag) now) with
        | ok =>
          refine Or.inr (Or.inr (Or.inl ⟨(mockSaveDoc_ok_iff _ _).mp hsv, ?_⟩))
          simp only [uploadStep, Upload]
          rw [generateHash_fst, generateHash_snd]
          simp only [findByHash, hfb]
          rw [if_neg htag, if_neg hnn]
          simp only [uploadTail, hsv]
          simp [applyEffects]
        | alreadyExists =>
          have heq : uploadStep u ⟨docs, bins, scans⟩ data size tag now =
              (UploadResult.uploadError,
               ⟨docs, binInsert bins (uploadIdOf (Sanitize u tag)), scans⟩) := by
            simp only [uploadStep, Upload]
            rw [generateHash_fst, generateHash_snd]
            simp only [findByHash, hfb]
            rw [if_neg htag, if_neg hnn]
            simp only [uploadTail, hsv]
            simp [applyEffects]
          exact Or.inr (Or.inr (Or.inr ⟨by rw [heq], Or.inr (by rw [heq])⟩))
        | failed =>
          have heq : uploadStep u ⟨docs, bins, scans⟩ data size tag now =
              (UploadResult.uploadError,
               ⟨docs, binInsert bins (uploadIdOf (Sanitize u tag)), scans⟩) := by
            simp only [uploadStep, Upload]
            rw [generateHash_fst, generateHash_snd]
            simp only [findByHash, hfb]
            rw [if_neg htag, if_neg hnn]
            simp only [uploadTail, hsv]
            simp [applyEffects]
          exact Or.inr (Or.inr (Or.inr ⟨by rw [heq], Or.inr (by rw [heq])⟩))
      · cases hsv : mockSaveDoc docs ⟨uploadIdOf (Sanitize u tag), uploadHashValue,
            Sanitize u tag, ed.Status, ed.AnalyzedAt, now⟩ with
        | ok =>
          refine Or.inr (Or.inl ⟨ed, rfl, (mockSaveDoc_ok_iff _ _).mp hsv, ?_⟩)
          simp only [uploadStep, Upload]
          rw [generateHash_fst, generateHash_snd]
          simp only [findByHash, hfb]
          rw [if_neg htag, if_pos hst]
          simp only [hsv]
          simp [applyEffects]
        | alreadyExists =>
          have heq : uploadStep u ⟨docs, bins, scans⟩ data size tag now =
              (UploadResult.uploadError, ⟨docs, bins, scans⟩) := by
            simp only [uploadStep, Upload]
            rw [generateHash_fst, generateHash_snd]
            simp only [findByHash, hfb]
            rw [if_neg htag, if_pos hst]
            simp only [hsv]
            simp [applyEffects]
          exact Or.inr (Or.inr (Or.inr ⟨by rw [heq], Or.inl (by rw [heq])⟩))
        | failed =>
          have heq : uploadStep u ⟨docs, bins, scans⟩ data size tag now =
              (UploadResult.uploadError, ⟨docs, bins, scans⟩) := by
            simp only [uploadStep, Upload]
            rw [generateHash_fst, generateHash_snd]
            simp only [findByHash, hfb]
            rw [if_neg htag, if_pos hst]
            simp only [hsv]
            simp [applyEffects]
          exact Or.inr (Or.inr (Or.inr ⟨by rw [heq], Or.inl (by rw [heq])⟩))
  | none =>
    simp only [findByHash] at hfb
    cases hsv : mockSaveDoc docs (NewDocument (uploadIdOf (Sanitize u tag))
        uploadHashValue (Sanitize u tag) now) with
    | ok =>
      refine Or.inr (Or.inr (Or.inl ⟨(mockSaveDoc_ok_iff _ _).mp hsv, ?_⟩))
      simp only [uploadStep, Upload]
      rw [generateHash_fst, generateHash_snd]
      simp only [findByHash, hfb]
      simp only [uploadTail, hsv]
      simp [applyEffects]
    | alreadyExists =>
      have heq : uploadStep u ⟨docs, bins, scans⟩ data size tag now =
          (UploadResult.uploadError,
           ⟨docs, binInsert bins (uploadIdOf (Sanitize u tag)), scans⟩) := by
        simp only [uploadStep, Upload]
        rw [generateHash_fst, generateHash_snd]
        simp only [findByHash, hfb]
        simp only [uploadTail, hsv]
        simp [applyEffects]
      exact Or.inr (Or.inr (Or.inr ⟨by rw [heq], Or.inr (by rw [heq])⟩))
    | failed =>
      have heq : uploadStep u ⟨docs, bins, scans⟩ data size tag now =
          (UploadResult.uploadError,
           ⟨docs, binInsert bins (uploadIdOf (Sanitize u tag)), scans⟩) := by
        simp only [uploadStep, Upload]
        rw [generateHash_fst, generateHash_snd]
        simp only [findByHash, hfb]
        simp only [uploadTail, hsv]
        simp [applyEffects]
      exact Or.inr (Or.inr (Or.inr ⟨by rw [heq], Or.inr (by rw [heq])⟩))

/-- One successful-upload-only transition preserves the invariant that
bytes exist only for pending documents. -/
theorem safeStep_preserves (u : UnicodeTables) {s s' : SysState}
    (hstep : SafeStep u s s')
    (h1 : BytesOnlyWhilePending s) (h2 : BinsPendingBacked s) :
    BytesOnlyWhilePending s' ∧ BinsPendingBacked s' := by
  obtain ⟨docs, bins, scans⟩ := s
  cases hstep with
  | upload data size tag now hok =>
    rcases uploadStep_shape u docs bins scans data size tag now with
      ⟨ed, hfb, heq⟩ | ⟨ed, hfb, hid, heq⟩ | ⟨hid, heq⟩ | ⟨herr, _⟩
    · rw [heq]
      exact ⟨h1, h2⟩
    · rw [heq]
      constructor
      · intro d hd hnp hmem
        rcases List.mem_append.mp hd with hdl | hdr
        · exact h1 d hdl hnp hmem
        · rw [List.mem_singleton] at hdr
          subst hdr
          obtain ⟨e, he, heid, hep⟩ := h2 _ hmem
          exact hid e he heid
      · intro i hi
        obtain ⟨e, he, heid, hep⟩ := h2 i hi
        exact ⟨e, List.mem_append.mpr (Or.inl he), heid, hep⟩
    · rw [heq]
      constructor
      · intro d hd hnp hmem
        rcases List.mem_append.mp hd with hdl | hdr
        · rcases (mem_binInsert _ _ _).mp hmem with hii | hib
          · exact hid d hdl hii
          · exact h1 d hdl hnp hib
        · rw [List.mem_singleton] at hdr
          subst hdr
          exact hnp rfl
      · intro i hi
        rcases (mem_binInsert _ _ _).mp hi with hii | hib
        · exact ⟨NewDocument (uploadIdOf (Sanitize u tag)) uploadHashValue (Sanitize u tag) now,
            List.mem_append.mpr (Or.inr (List.mem_singleton.mpr rfl)), by rw [hii]; rfl, rfl⟩
        · obtain ⟨e, he, heid, hep⟩ := h2 i hib
          exact ⟨e, List.mem_append.mpr (Or.inl he), heid, hep⟩
    · exact absurd herr hok
  | scanComplete ID st t hnp' =>
    constructor
    · intro d hd hdnp hmem
      rw [mem_binDelete] at hmem
      obtain ⟨hdb, hdne⟩ := hmem
      obtain ⟨e, he, hfe⟩ := List.mem_map.mp hd
      by_cases hei : e.ID = ID
      · rw [if_pos hei] at hfe
        refine hdne ?_
        rw [← hfe]
        exact hei
      · rw [if_neg hei] at hfe
        subst hfe
        exact h1 e he hdnp hdb
    · intro i hi
      rw [mem_binDelete] at hi
      obtain ⟨hib, hine⟩ := hi
      obtain ⟨e, he, heid, hep⟩ := h2 i hib
      have hei : e.ID ≠ ID := by rw [heid]; exact hine
      exact ⟨e, List.mem_map.mpr ⟨e, he, by rw [if_neg hei]⟩, heid, hep⟩
  | purgeTick date =>
    constructor
    · intro d hd hnp hmem
      exact h1 d (List.mem_filter.mp hd).1 hnp hmem
    · intro i hi
      obtain ⟨e, he, heid, hep⟩ := h2 i hi
      refine ⟨e, List.mem_filter.mpr ⟨he, ?_⟩, heid, hep⟩
      simp [hep]

/-- Claim C5 (amended): in every state reachable through transitions
whose uploads all succeed, a document's bytes exist in the binary store
only while its status is pending; and in the coordinator, a bytes
deletion only ever follows the status write. -/
theorem C5_bytes_only_while_pending (u : UnicodeTables) (s : SysState)
    (h : SafeReachable u initState s) :
    BytesOnlyWhilePending s ∧
    (∀ beh uOk dOk content,
      deleteAfterUpdate false (attemptAnalysis beh uOk dOk content).1 = true) := by
  constructor
  · have key : BytesOnlyWhilePending s ∧ BinsPendingBacked s := by
      induction h with
      | refl =>
        exact ⟨fun d hd => absurd hd (List.not_mem_nil d),
               fun i hi => absurd hi (List.not_mem_nil i)⟩
      | tail hr hstep ih => exact safeStep_preserves u hstep ih.1 ih.2
    exact key.1
  · intro beh uOk dOk content
    exact deleteAfterUpdate_attemptLoop beh uOk dOk AntivirusRetryWaitTimes 0 content false

/-- State after a successful upload under tag w. -/
def c5SafeState1 : SysState := (uploadStep asciiTables initState [3] 1 "w".toList 0).2

/-- State after that document's scan completes infected. -/
def c5SafeState2 : SysState :=
  ⟨updateStatusDocs c5SafeState1.docs (uploadIdOf (Sanitize asciiTables "w".toList))
    AnalysisStatus.infected 1,
   binDelete c5SafeState1.bins (uploadIdOf (Sanitize asciiTables "w".toList)),
   c5SafeState1.scans⟩

/-- Claim C5 witness: the amended invariant at the concrete reachable
state upload-then-scan-completes. -/
theorem C5_bytes_only_while_pending_witness :
    BytesOnlyWhilePending c5SafeState2 ∧
    (∀ beh uOk dOk content,
      deleteAfterUpdate false (attemptAnalysis beh uOk dOk content).1 = true) :=
  C5_bytes_only_while_pending asciiTables c5SafeState2
    (Relation.ReflTransGen.tail
      (Relation.ReflTransGen.single (SafeStep.upload initState [3] 1 "w".toList 0 (by decide)))
      (SafeStep.scanComplete c5SafeState1 (uploadIdOf (Sanitize asciiTables "w".toList))
        AnalysisStatus.infected 1 (by decide)))

/-- First state of the claim C5 counterexample run: tag-a upload. -/
def c5State1 : SysState := (uploadStep asciiTables initState [1] 1 "a".toList 0).2

/-- Second state: tag-b upload of the same content while the tag-a
document is still pending (the fresh path runs again, storing bytes
under the tag-b id). -/
def c5State2 : SysState := (uploadStep asciiTables c5State1 [1] 1 "b".toList 1).2

/-- Third state: the tag-b scan completes clean, so the tag-b bytes are
deleted. -/
def c5State3 : SysState :=
  ⟨updateStatusDocs c5State2.docs (uploadIdOf (Sanitize asciiTables "b".toList))
    AnalysisStatus.clean 2,
   binDelete c5State2.bins (uploadIdOf (Sanitize asciiTables "b".toList)),
   c5State2.scans⟩

/-- Fourth state: a repeated tag-b upload finds the still-pending tag-a
row first, stores bytes under the tag-b id again, and then fails its
metadata insert; the failed upload leaves the bytes behind. -/
def c5State4 : SysState := (uploadStep asciiTables c5State3 [1] 1 "b".toList 3).2

/-- Claim C5 counterexample: the invariant does not hold in every
reachable state — after the four-step run above, the tag-b document is
clean yet its id again holds bytes, because the failed upload stored
bytes before its metadata insert was refused and nothing deletes them. -/
theorem C5_counterexample :
    Reachable asciiTables initState c5State4 ∧ ¬ BytesOnlyWhilePending c5State4 := by
  constructor
  · exact Relation.ReflTransGen.tail (Relation.ReflTransGen.tail (Relation.ReflTransGen.tail
      (Relation.ReflTransGen.single (Step.upload initState [1] 1 "a".toList 0))
      (Step.upload c5State1 [1] 1 "b".toList 1))
      (Step.scanComplete c5State2 (uploadIdOf (Sanitize asciiTables "b".toList))
        AnalysisStatus.clean 2 (by decide)))
      (Step.upload c5State3 [1] 1 "b".toList 3)
  · intro h
    exact h ⟨uploadIdOf (Sanitize asciiTables "b".toList), uploadHashValue,
        Sanitize asciiTables "b".toList, AnalysisStatus.clean, 2, 1⟩
      (by decide) (by decide) (by decide)

end Goyav
